import Mathlib

/-!
Shallow embedding of the board-state engine of the "Cookie Test Kitchen"
puzzle game (`src/main.rs`): the piece catalog, the 5×5 grid model, the
match/clear counting algorithm (`count_clears`), the slide engine inside
`move_player_cursor`, the random board filler (`randomly_fill_board`) and
the input debouncer (`update_input` / `move_player_cursor`).

Rendering, sprites and animation tweens are out of scope; the animation
system is represented only by the boolean "is any animation in progress"
guard that the game logic reads.
-/

namespace Yoco

/-- The fixed closed set of piece kinds (`enum Piece`). -/
inductive Piece where
  | Mascot
  | Checkered
  | Donut
  | Flower
  | Green
  | Heart
deriving DecidableEq, Repr

/-- `Piece::all_pieces()`. -/
def all_pieces : List Piece :=
  [Piece.Mascot, Piece.Checkered, Piece.Donut, Piece.Flower, Piece.Green, Piece.Heart]

/-- `IteratorExt::all_equal`: `true` on an empty iterator, otherwise every
remaining element must equal the first. -/
def allEqual {α : Type} [DecidableEq α] : List α → Bool
  | [] => true
  | a :: rest => rest.all (fun x => a == x)

/-- A fully-occupied board, as consumed by `board_has_clear`
(`&[[Piece; 5]; 5]`): `b y x` is the piece at column `x` of row `y`. -/
def PBoard : Type := Fin 5 → Fin 5 → Piece

/-- The cell matrix of `BoardState`: each cell holds an optional piece
(`PieceState.piece`); the entity handles are presentation-only and omitted. -/
def Board : Type := Fin 5 → Fin 5 → Option Piece

/-- `board_has_clear`: single-pass check, true iff some row or some column
is uniform. -/
def board_has_clear (board : PBoard) : Bool :=
  ((List.finRange 5).any (fun y =>
      (List.finRange 5).all (fun x => board y 0 == board y x)))
    || ((List.finRange 5).any (fun x =>
      (List.finRange 5).all (fun y => board 0 x == board y x)))

/-- `BoardState::has_empty`. -/
def has_empty (b : Board) : Bool :=
  (List.finRange 5).any (fun y => (List.finRange 5).any (fun x => (b y x).isNone))

/-- The not-yet-ignored cells of row `nrow`, in column order, as scanned by
`count_clears` (`(0..5).filter(...).map(...)`). -/
def lineForRow (b : PBoard) (ignC : Nat) (nrow : Fin 5) : List Piece :=
  ((List.finRange 5).filter (fun ncol => ignC &&& (1 <<< ncol.val) == 0)).map
    (fun ncol => b nrow ncol)

/-- The not-yet-ignored cells of column `ncol`, in row order, as scanned by
`count_clears`. -/
def lineForCol (b : PBoard) (ignR : Nat) (ncol : Fin 5) : List Piece :=
  ((List.finRange 5).filter (fun nrow => ignR &&& (1 <<< nrow.val) == 0)).map
    (fun nrow => b nrow ncol)

/-- One iteration of either `for` loop inside `count_clears`: state is the
(own ignore-mask, running count) pair; `line n` is the filtered line for
index `n` (which depends only on the other axis's mask, fixed during one
scan). -/
def scanStep (line : Fin 5 → List Piece) (s : Nat × Nat) (n : Fin 5) : Nat × Nat :=
  if s.1 &&& (1 <<< n.val) ≠ 0 then s
  else if allEqual (line n) then (s.1 ||| (1 <<< n.val), s.2 + 1)
  else s

/-- One full `for` loop (row scan or column scan) of `count_clears`. -/
def scan (line : Fin 5 → List Piece) (s : Nat × Nat) : Nat × Nat :=
  (List.finRange 5).foldl (scanStep line) s

/-- One pass of the `loop` in `count_clears`: the row scan runs first with
the pre-pass column mask, then the column scan runs with the row mask as
just updated by the row scan.  State is `(ignored_rows, ignored_cols, cnt)`. -/
def clearsPass (b : PBoard) (s : Nat × Nat × Nat) : Nat × Nat × Nat :=
  let r := scan (lineForRow b s.2.1) (s.1, s.2.2)
  let c := scan (lineForCol b r.1) (s.2.1, r.2)
  (r.1, c.1, c.2)

/-- The `loop` of `count_clears`, with fuel.  The exit test is the source's
`prev_cnt == cnt || ignored_rows == 0b1111 || ignored_cols == 0b1111`
(note: the literal in the source is `0b1111`, i.e. `15`, covering only
rows/columns 0–3 of the 5-bit masks).  Each continuing iteration strictly
increases `cnt`, which never exceeds 10, so fuel 12 always reaches an exit. -/
def clearsLoop (b : PBoard) : Nat → Nat × Nat × Nat → Nat × Nat × Nat
  | 0, s => s
  | fuel + 1, s =>
    let prev := s.2.2
    let s' := clearsPass b s
    if prev == s'.2.2 || s'.1 == 15 || s'.2.1 == 15 then s'
    else clearsLoop b fuel s'

/-- `BoardState::count_clears`: run the pass loop from empty masks and a
zero count and return the final count. -/
def count_clears (b : PBoard) : Nat :=
  (clearsLoop b 12 (0, 0, 0)).2.2

/-- Modelled from the spec: the pass loop with the exit condition the spec
describes — "repeat passes until no new row or column is claimed in a pass,
or until all rows are claimed, or until all columns are claimed" — i.e. the
all-five masks `0b11111 = 31` instead of the source's `0b1111`. -/
def clearsLoopSpec (b : PBoard) : Nat → Nat × Nat × Nat → Nat × Nat × Nat
  | 0, s => s
  | fuel + 1, s =>
    let prev := s.2.2
    let s' := clearsPass b s
    if prev == s'.2.2 || s'.1 == 31 || s'.2.1 == 31 then s'
    else clearsLoopSpec b fuel s'

/-- Modelled from the spec: `count_clears` as the spec's words describe its
pass loop (see `clearsLoopSpec`). -/
def count_clears_spec (b : PBoard) : Nat :=
  (clearsLoopSpec b 12 (0, 0, 0)).2.2

/-- Modelled from the spec: one pass in which the row scan and the column
scan "both use the same pre-pass claimed-set snapshot" — the column scan
filters rows by the pass's *initial* row mask rather than the row mask just
updated by the row scan.  (Compare `clearsPass`, translated from the
source.) -/
def clearsPassSnapshot (b : PBoard) (s : Nat × Nat × Nat) : Nat × Nat × Nat :=
  let r := scan (lineForRow b s.2.1) (s.1, s.2.2)
  let c := scan (lineForCol b s.1) (s.2.1, r.2)
  (r.1, c.1, c.2)


/-- Concrete board for the `count_clears` early-exit analysis: columns 0–3
are uniform (`Mascot`, `Checkered`, `Donut`, `Flower`), column 4 is
`[Mascot, Checkered, Donut, Flower, Green]`; no row is uniform. -/
def c1Board : PBoard := fun y x =>
  match x.val with
  | 0 => Piece.Mascot
  | 1 => Piece.Checkered
  | 2 => Piece.Donut
  | 3 => Piece.Flower
  | _ =>
    match y.val with
    | 0 => Piece.Mascot
    | 1 => Piece.Checkered
    | 2 => Piece.Donut
    | 3 => Piece.Flower
    | _ => Piece.Green

/-- Concrete board for the pass-snapshot analysis: row 0 is uniformly
`Mascot`; column 0 below row 0 is uniformly `Checkered`; the remaining
cells alternate `Donut`/`Flower`, so column 0 is uniform over rows 1–4 but
not over all five rows. -/
def c4Board : PBoard := fun y x =>
  if y.val = 0 then Piece.Mascot
  else if x.val = 0 then Piece.Checkered
  else if (x.val + y.val) % 2 = 0 then Piece.Donut
  else Piece.Flower

/-- The all-`Mascot` board. -/
def uniformBoard : PBoard := fun _ _ => Piece.Mascot

/-- `enum Direction`. -/
inductive Direction where
  | Up
  | Down
  | Left
  | Right
deriving DecidableEq, Repr

/-- The plain (no-modifier) cursor move at the end of `move_player_cursor`:
`u8` arithmetic `(v + 1) % 5` / `(v + 4) % 5` on the affected axis. -/
def moveCursor (c : Fin 5 × Fin 5) : Direction → Fin 5 × Fin 5
  | Direction.Up => (c.1, ⟨(c.2.val + 1) % 5, by omega⟩)
  | Direction.Down => (c.1, ⟨(c.2.val + 4) % 5, by omega⟩)
  | Direction.Left => (⟨(c.1.val + 4) % 5, by omega⟩, c.2)
  | Direction.Right => (⟨(c.1.val + 1) % 5, by omega⟩, c.2)

/-- The `(indices, offset_x, offset_y)` triple computed by the `match` on
the direction in the slide branch of `move_player_cursor`.  `indices` is a
list of `(x_idx, y_idx)` pairs; vertical slides act on the cursor's column,
horizontal slides on the cursor's row. -/
def slideIndices (cursor : Fin 5 × Fin 5) :
    Direction → List (Fin 5 × Fin 5) × Nat × Nat
  | Direction.Up =>
    ([(cursor.1, 0), (cursor.1, 1), (cursor.1, 2), (cursor.1, 3), (cursor.1, 4)], 0, 1)
  | Direction.Down =>
    ([(cursor.1, 0), (cursor.1, 1), (cursor.1, 2), (cursor.1, 3), (cursor.1, 4)], 0, 4)
  | Direction.Left =>
    ([(0, cursor.2), (1, cursor.2), (2, cursor.2), (3, cursor.2), (4, cursor.2)], 4, 0)
  | Direction.Right =>
    ([(0, cursor.2), (1, cursor.2), (2, cursor.2), (3, cursor.2), (4, cursor.2)], 1, 0)

/-- Rust's `slice::rotate_right` on a list. -/
def rotateRight {α : Type} (l : List α) (n : Nat) : List α :=
  l.rotate (l.length - n % l.length)

/-- The remapping `match offset { 0 => 0, 4 => 1, _ => -1 }` applied to the
raw offsets before they are used as displacement signs. -/
def remapOffset : Nat → Int
  | 0 => 0
  | 4 => 1
  | _ => -1

/-- Overwrite the piece of one cell (`piece_state.piece = Some(piece_type)`). -/
def setCell (b : Board) (xy : Fin 5 × Fin 5) (p : Piece) : Board :=
  fun y x => if y = xy.2 ∧ x = xy.1 then some p else b y x

/-- The write-back `for` loop of the slide branch: each listed cell takes
the corresponding rotated piece. -/
def applyWrites (b : Board) : List ((Fin 5 × Fin 5) × Piece) → Board
  | [] => b
  | (xy, p) :: rest => applyWrites (setCell b xy p) rest

/-- The slide branch of `move_player_cursor` (modifier held): read the 5
pieces along the selected line (`unwrap`, guarded by full occupancy),
`rotate_right` by `max(offset_x, offset_y)`, write the rotated pieces back,
and compute the piece displayed on the extra entity that slides off the end
(`piece_types[4 - last_index]`).  Returns the new board and that ejected
piece. -/
def slideCommit (b : Board) (cursor : Fin 5 × Fin 5) (dir : Direction) :
    Board × Piece :=
  let idx := slideIndices cursor dir
  let pieceTypes := idx.1.map (fun xy => (b xy.2 xy.1).getD Piece.Mascot)
  let rotated := rotateRight pieceTypes (max idx.2.1 idx.2.2)
  let ox := remapOffset idx.2.1
  let oy := remapOffset idx.2.2
  let newBoard := applyWrites b (idx.1.zip rotated)
  let lastSign := if ox ≠ 0 then ox else oy
  let lastIndex := if lastSign = -1 then 4 else 0
  (newBoard, rotated.getD (4 - lastIndex) Piece.Mascot)

/-- `FRAME_TIME = 1.0 / 60.0`, in seconds (time is modelled as rationals). -/
def FRAME_TIME : ℚ := 1 / 60

/-- `struct PreviousInput`: the stopwatch's elapsed seconds, the buffered
direction, and whether a shift key was held at the buffered key edge. -/
structure PreviousInput where
  elapsed : ℚ
  direction : Option Direction
  shift_held : Bool
deriving DecidableEq, Repr

/-- `update_input`: a key edge (direction plus current shift level) resets
the stopwatch and overwrites the buffered move; with no key edge the
stopwatch ticks by the frame delta, but only while a move is buffered. -/
def update_input (pi : PreviousInput) (keyEdge : Option (Direction × Bool))
    (delta : ℚ) : PreviousInput :=
  match keyEdge with
  | some (d, s) => { elapsed := 0, direction := some d, shift_held := s }
  | none =>
    if pi.direction.isSome then { pi with elapsed := pi.elapsed + delta }
    else pi

/-- The game state read and written by one `move_player_cursor` tick. -/
structure TickState where
  board : Board
  cursor : Fin 5 × Fin 5
  prevInput : PreviousInput

/-- `move_player_cursor`, one tick.  `anim` is the "any piece animation
still in progress" query.  Returns the new state plus the ejected piece
when a slide was committed.  Early-returns (leaving the buffered move in
place) while an animation plays or the board has an empty cell; otherwise
the buffered direction is taken (cleared) and then dropped if stale
(`elapsed > FRAME_TIME * 3`), slides the line if shift was held, and moves
the cursor otherwise. -/
def move_player_cursor (anim : Bool) (st : TickState) : TickState × Option Piece :=
  if anim || has_empty st.board then (st, none)
  else
    match st.prevInput.direction with
    | none => (st, none)
    | some dir =>
      let pi := { st.prevInput with direction := none }
      if st.prevInput.elapsed > FRAME_TIME * 3 then
        ({ st with prevInput := pi }, none)
      else if st.prevInput.shift_held then
        let r := slideCommit st.board st.cursor dir
        ({ st with board := r.1, prevInput := pi }, some r.2)
      else
        ({ st with cursor := moveCursor st.cursor dir, prevInput := pi }, none)

/-- One rejection-sampling candidate of `randomly_fill_board`: occupied
cells keep their piece, empty cells take the drawn piece. -/
def fillCandidate (b : Board) (draws : Fin 5 → Fin 5 → Piece) : PBoard :=
  fun y x =>
    match b y x with
    | some p => p
    | none => draws y x

/-- The rejection-sampling `loop` of `randomly_fill_board`, with the
per-attempt random draws supplied as a finite stream (the Rust loop is
unbounded; `none` means the stream was exhausted before a clear-free
candidate appeared). -/
def fillLoop (b : Board) : List (Fin 5 → Fin 5 → Piece) → Option PBoard
  | [] => none
  | d :: rest =>
    let fb := fillCandidate b d
    if board_has_clear fb then fillLoop b rest else some fb

/-- `randomly_fill_board`: does nothing unless some cell is empty; runs the
rejection-sampling loop and writes the accepted candidate back, skipping
cells that already hold a piece. -/
def randomly_fill_board (b : Board) (draws : List (Fin 5 → Fin 5 → Piece)) : Board :=
  if has_empty b = false then b
  else
    match fillLoop b draws with
    | none => b
    | some fb =>
      fun y x =>
        match b y x with
        | some p => some p
        | none => some (fb y x)


/-- A fully-occupied concrete board whose row `y = 2` is
`[Mascot, Checkered, Donut, Flower, Green]` (the `A,B,C,D,E` of the spec's
slide scenario); all other cells hold `Heart`. -/
def c2Board : Board := fun y x =>
  if y.val = 2 then
    match x.val with
    | 0 => some Piece.Mascot
    | 1 => some Piece.Checkered
    | 2 => some Piece.Donut
    | 3 => some Piece.Flower
    | _ => some Piece.Green
  else some Piece.Heart


/-- The row function `[Mascot, Checkered, Donut, Flower, Green]` (the
`A,B,C,D,E` of row `y = 2` of `c2Board`). -/
def c2RowFun : Fin 5 → Piece := fun x =>
  match x.val with
  | 0 => Piece.Mascot
  | 1 => Piece.Checkered
  | 2 => Piece.Donut
  | 3 => Piece.Flower
  | _ => Piece.Green

/-- The all-empty board (every cell `None`). -/
def emptyBoard : Board := fun _ _ => none

/-- A concrete clear-free draw grid for the board filler: cell `(x, y)`
takes piece number `(x + y) % 6`, so no row or column is uniform. -/
def g0 : Fin 5 → Fin 5 → Piece := fun y x =>
  all_pieces.getD ((x.val + y.val) % 6) Piece.Mascot

/-- Concrete tick state: full board, cursor at `(2, 2)`, a fresh buffered
`Up` move without the shift modifier. -/
def stC7 : TickState :=
  { board := c2Board, cursor := (2, 2)
    prevInput := { elapsed := 0, direction := some Direction.Up, shift_held := false } }

/-- Concrete tick state over the all-empty board with a buffered move. -/
def stC8 : TickState :=
  { board := emptyBoard, cursor := (0, 0)
    prevInput := { elapsed := 0, direction := some Direction.Up, shift_held := false } }

/-- Concrete tick state: cursor at `(0, 4)` with a fresh buffered `Up`. -/
def stC10 : TickState :=
  { board := c2Board, cursor := (0, 4)
    prevInput := { elapsed := 0, direction := some Direction.Up, shift_held := false } }

/-- Concrete tick state: cursor at `(0, 0)` with a fresh buffered `Left`. -/
def stC10L : TickState :=
  { board := c2Board, cursor := (0, 0)
    prevInput := { elapsed := 0, direction := some Direction.Left, shift_held := false } }

/-! ### Bitmask helpers -/

theorem mask_bit_iff (m i : Nat) : (m &&& (1 <<< i) ≠ 0) ↔ m.testBit i = true := by
  rw [Nat.one_shiftLeft, Nat.and_two_pow]
  have h2 : 2 ^ i ≠ 0 := Nat.pos_iff_ne_zero.mp (Nat.pos_pow_of_pos i (by norm_num))
  cases h : m.testBit i <;> simp [h2]

theorem testBit_or_shift (m i : Nat) (n : Fin 5) :
    (m ||| (1 <<< n.val)).testBit i = (m.testBit i || decide (n.val = i)) := by
  rw [Nat.testBit_or, Nat.one_shiftLeft]
  by_cases h : n.val = i
  · subst h; simp [Nat.testBit_two_pow_self]
  · simp [Nat.testBit_two_pow_of_ne h, h]

/-! ### Generic lemmas about the row/column scans of `count_clears` -/

theorem scanStep_cnt_le (line : Fin 5 → List Piece) (s : Nat × Nat) (n : Fin 5) :
    s.2 ≤ (scanStep line s n).2 := by
  unfold scanStep
  split
  · exact le_refl _
  · split
    · exact Nat.le_succ _
    · exact le_refl _

theorem scan_cnt_le (line : Fin 5 → List Piece) (l : List (Fin 5)) (s : Nat × Nat) :
    s.2 ≤ (l.foldl (scanStep line) s).2 := by
  induction l generalizing s with
  | nil => exact le_refl _
  | cons a l ih => exact le_trans (scanStep_cnt_le line s a) (ih _)

theorem scanStep_bit_mono (line : Fin 5 → List Piece) (s : Nat × Nat) (n : Fin 5)
    (i : Nat) (h : s.1.testBit i = true) : (scanStep line s n).1.testBit i = true := by
  unfold scanStep
  split
  · exact h
  · split
    · simp [testBit_or_shift, h]
    · exact h

theorem scan_bit_mono (line : Fin 5 → List Piece) (l : List (Fin 5)) (s : Nat × Nat)
    (i : Nat) (h : s.1.testBit i = true) :
    (l.foldl (scanStep line) s).1.testBit i = true := by
  induction l generalizing s with
  | nil => exact h
  | cons a l ih => exact ih _ (scanStep_bit_mono line s a i h)

theorem scan_bits_subset (line : Fin 5 → List Piece) (l : List (Fin 5)) (s : Nat × Nat)
    (i : Nat) (h : (l.foldl (scanStep line) s).1.testBit i = true) :
    s.1.testBit i = true ∨ ∃ n ∈ l, n.val = i := by
  induction l generalizing s with
  | nil => exact Or.inl h
  | cons a l ih =>
    rcases ih _ h with h' | ⟨n, hn, hv⟩
    · unfold scanStep at h'
      split at h'
      · exact Or.inl h'
      · split at h'
        · rw [testBit_or_shift] at h'
          rcases Bool.or_eq_true_iff.mp h' with h'' | h''
          · exact Or.inl h''
          · exact Or.inr ⟨a, List.mem_cons_self a l, of_decide_eq_true h''⟩
        · exact Or.inl h'
    · exact Or.inr ⟨n, List.mem_cons_of_mem a hn, hv⟩

theorem scan_claims (line : Fin 5 → List Piece) (l : List (Fin 5)) (s : Nat × Nat)
    (n : Fin 5) (hmem : n ∈ l) (heq : allEqual (line n) = true) :
    (l.foldl (scanStep line) s).1.testBit n.val = true := by
  induction l generalizing s with
  | nil => cases hmem
  | cons a l ih =>
    rcases List.mem_cons.mp hmem with rfl | hmem'
    · apply scan_bit_mono line l
      unfold scanStep
      by_cases hcond : s.1 &&& 1 <<< n.val ≠ 0
      · rw [if_pos hcond]
        exact (mask_bit_iff s.1 n.val).mp hcond
      · rw [if_neg hcond, if_pos heq]
        simp [testBit_or_shift]
    · exact ih _ hmem'

theorem scan_fresh_claim (line : Fin 5 → List Piece) (l1 l2 : List (Fin 5)) (s : Nat × Nat)
    (n : Fin 5) (hnl1 : n ∉ l1) (hbit : s.1.testBit n.val = false)
    (heq : allEqual (line n) = true) :
    s.2 + 1 ≤ ((l1 ++ n :: l2).foldl (scanStep line) s).2 := by
  rw [List.foldl_append]
  set s1 := l1.foldl (scanStep line) s with hs1
  have hbit1 : s1.1.testBit n.val = false := by
    cases hb : s1.1.testBit n.val
    · rfl
    · rcases scan_bits_subset line l1 s n.val hb with h' | ⟨m, hm, hv⟩
      · rw [hbit] at h'; cases h'
      · exact absurd (Fin.val_injective hv ▸ hm) hnl1
  have hcnt1 : s.2 ≤ s1.2 := scan_cnt_le line l1 s
  have hstep : (scanStep line s1 n).2 = s1.2 + 1 := by
    unfold scanStep
    rw [if_neg (fun hc => by rw [(mask_bit_iff s1.1 n.val).mp hc] at hbit1; cases hbit1),
      if_pos heq]
  calc s.2 + 1 ≤ s1.2 + 1 := Nat.succ_le_succ hcnt1
    _ = (scanStep line s1 n).2 := hstep.symm
    _ ≤ _ := scan_cnt_le line l2 _

theorem allEqual_of_pairwise {α : Type} [DecidableEq α] (l : List α)
    (h : ∀ a ∈ l, ∀ b ∈ l, a = b) : allEqual l = true := by
  cases l with
  | nil => rfl
  | cons a rest =>
    unfold allEqual
    rw [List.all_eq_true]
    intro x hx
    exact beq_iff_eq.mpr (h a (List.mem_cons_self a rest) x (List.mem_cons_of_mem a hx))

/-! ### Monotonicity of `clearsPass` and `clearsLoop` -/

theorem clearsPass_row_mono (b : PBoard) (s : Nat × Nat × Nat) (i : Nat)
    (h : s.1.testBit i = true) : (clearsPass b s).1.testBit i = true :=
  scan_bit_mono _ _ _ i h

theorem clearsPass_col_mono (b : PBoard) (s : Nat × Nat × Nat) (i : Nat)
    (h : s.2.1.testBit i = true) : (clearsPass b s).2.1.testBit i = true :=
  scan_bit_mono _ _ _ i h

theorem scan_cnt_le' (line : Fin 5 → List Piece) (s : Nat × Nat) : s.2 ≤ (scan line s).2 :=
  scan_cnt_le line (List.finRange 5) s

theorem clearsPass_cnt_mono (b : PBoard) (s : Nat × Nat × Nat) :
    s.2.2 ≤ (clearsPass b s).2.2 := by
  simp only [clearsPass]
  refine le_trans (scan_cnt_le' (lineForRow b s.2.1) (s.1, s.2.2)) ?_
  exact scan_cnt_le' (lineForCol b (scan (lineForRow b s.2.1) (s.1, s.2.2)).1)
    ((s.2.1, (scan (lineForRow b s.2.1) (s.1, s.2.2)).2))

theorem clearsLoop_succ (b : PBoard) (fuel : Nat) (s : Nat × Nat × Nat) :
    clearsLoop b (fuel + 1) s =
      if s.2.2 == (clearsPass b s).2.2 || (clearsPass b s).1 == 15
          || (clearsPass b s).2.1 == 15 then clearsPass b s
      else clearsLoop b fuel (clearsPass b s) := rfl

theorem clearsLoop_row_mono (b : PBoard) (fuel : Nat) (s : Nat × Nat × Nat) (i : Nat)
    (h : s.1.testBit i = true) : (clearsLoop b fuel s).1.testBit i = true := by
  induction fuel generalizing s with
  | zero => exact h
  | succ fuel ih =>
    rw [clearsLoop_succ]
    split
    · exact clearsPass_row_mono b s i h
    · exact ih _ (clearsPass_row_mono b s i h)

theorem clearsLoop_col_mono (b : PBoard) (fuel : Nat) (s : Nat × Nat × Nat) (i : Nat)
    (h : s.2.1.testBit i = true) : (clearsLoop b fuel s).2.1.testBit i = true := by
  induction fuel generalizing s with
  | zero => exact h
  | succ fuel ih =>
    rw [clearsLoop_succ]
    split
    · exact clearsPass_col_mono b s i h
    · exact ih _ (clearsPass_col_mono b s i h)

theorem clearsLoop_cnt_mono (b : PBoard) (fuel : Nat) (s : Nat × Nat × Nat) :
    s.2.2 ≤ (clearsLoop b fuel s).2.2 := by
  induction fuel generalizing s with
  | zero => exact le_refl _
  | succ fuel ih =>
    rw [clearsLoop_succ]
    split
    · exact clearsPass_cnt_mono b s
    · exact le_trans (clearsPass_cnt_mono b s) (ih _)

/-! ### The write-back loop of the slide engine -/

theorem applyWrites_not_mem (l : List ((Fin 5 × Fin 5) × Piece)) (b : Board)
    (x y : Fin 5) (h : (x, y) ∉ l.map Prod.fst) :
    applyWrites b l y x = b y x := by
  induction l generalizing b with
  | nil => rfl
  | cons kp rest ih =>
    rw [List.map_cons, List.mem_cons] at h
    push_neg at h
    show applyWrites (setCell b kp.1 kp.2) rest y x = b y x
    rw [ih _ h.2]
    unfold setCell
    rw [if_neg]
    intro ⟨hy, hx⟩
    exact h.1 (by rw [hx, hy])

theorem applyWrites_mem (l : List ((Fin 5 × Fin 5) × Piece)) (b : Board)
    (x y : Fin 5) (p : Piece) (hnd : (l.map Prod.fst).Nodup)
    (hmem : ((x, y), p) ∈ l) : applyWrites b l y x = some p := by
  induction l generalizing b with
  | nil => cases hmem
  | cons kp rest ih =>
    rw [List.map_cons, List.nodup_cons] at hnd
    rcases List.mem_cons.mp hmem with rfl | hmem'
    · show applyWrites (setCell b (x, y) p) rest y x = some p
      rw [applyWrites_not_mem rest _ x y hnd.1]
      unfold setCell
      rw [if_pos ⟨rfl, rfl⟩]
    · exact ih _ hnd.2 hmem'

theorem applyWrites_isSome (l : List ((Fin 5 × Fin 5) × Piece)) (b : Board)
    (x y : Fin 5) (h : (b y x).isSome = true) :
    ((applyWrites b l) y x).isSome = true := by
  induction l generalizing b with
  | nil => exact h
  | cons kp rest ih =>
    show ((applyWrites (setCell b kp.1 kp.2) rest) y x).isSome = true
    apply ih
    unfold setCell
    split
    · rfl
    · exact h

theorem slide_line_spec (b : Board) (keys : List (Fin 5 × Fin 5)) (vals : List Piece)
    (hnd : keys.Nodup) (hlen : vals.length = keys.length) :
    keys.map (fun k => applyWrites b (keys.zip vals) k.2 k.1) = vals.map some := by
  induction keys generalizing b vals with
  | nil =>
    cases vals with
    | nil => rfl
    | cons v vs => cases hlen
  | cons k ks ih =>
    cases vals with
    | nil => cases hlen
    | cons v vs =>
      rw [List.nodup_cons] at hnd
      have hlen' : vs.length = ks.length := by
        simpa using hlen
      have hfst : ((k :: ks).zip (v :: vs)).map Prod.fst = k :: ks :=
        List.map_fst_zip _ _ (le_of_eq hlen.symm)
      have hnd2 : (((k :: ks).zip (v :: vs)).map Prod.fst).Nodup := by
        rw [hfst]
        exact List.nodup_cons.mpr hnd
      have hmem0 : ((k.1, k.2), v) ∈ (k :: ks).zip (v :: vs) := by
        rw [List.zip_cons_cons, Prod.mk.eta]
        exact List.mem_cons_self _ _
      rw [List.map_cons, List.map_cons]
      congr 1
      · exact applyWrites_mem _ b k.1 k.2 v hnd2 hmem0
      · show ks.map (fun k' => applyWrites (setCell b k v) (ks.zip vs) k'.2 k'.1)
          = vs.map some
        exact ih _ _ hnd.2 hlen'

/-! ### Scan-level wrappers -/

theorem scan_bit_mono' (line : Fin 5 → List Piece) (s : Nat × Nat) (i : Nat)
    (h : s.1.testBit i = true) : (scan line s).1.testBit i = true :=
  scan_bit_mono line (List.finRange 5) s i h

theorem scan_claims' (line : Fin 5 → List Piece) (s : Nat × Nat) (n : Fin 5)
    (heq : allEqual (line n) = true) : (scan line s).1.testBit n.val = true :=
  scan_claims line (List.finRange 5) s n (List.mem_finRange n) heq

theorem scan_fresh_claim' (line : Fin 5 → List Piece) (s : Nat × Nat) (n : Fin 5)
    (hbit : s.1.testBit n.val = false) (heq : allEqual (line n) = true) :
    s.2 + 1 ≤ (scan line s).2 := by
  rcases List.append_of_mem (List.mem_finRange n) with ⟨l1, l2, hsplit⟩
  have hnd : (l1 ++ n :: l2).Nodup := hsplit ▸ List.nodup_finRange 5
  have hnl1 : n ∉ l1 := by
    intro hmem
    exact (List.nodup_append.mp hnd).2.2 hmem (List.mem_cons_self n l2)
  show s.2 + 1 ≤ ((List.finRange 5).foldl (scanStep line) s).2
  rw [hsplit]
  exact scan_fresh_claim line l1 l2 s n hnl1 hbit heq

/-! ### `has_empty` characterization -/

theorem has_empty_false_iff (b : Board) :
    has_empty b = false ↔ ∀ y x : Fin 5, (b y x).isSome = true := by
  constructor
  · intro h y x
    cases hb : b y x with
    | some p => rfl
    | none =>
      exfalso
      have : has_empty b = true := by
        unfold has_empty
        rw [List.any_eq_true]
        refine ⟨y, List.mem_finRange y, ?_⟩
        rw [List.any_eq_true]
        exact ⟨x, List.mem_finRange x, by rw [hb]; rfl⟩
      rw [h] at this
      cases this
  · intro h
    cases he : has_empty b with
    | false => rfl
    | true =>
      exfalso
      unfold has_empty at he
      rw [List.any_eq_true] at he
      obtain ⟨y, -, hy⟩ := he
      rw [List.any_eq_true] at hy
      obtain ⟨x, -, hx⟩ := hy
      have hs := h y x
      cases hb : b y x with
      | some p => rw [hb] at hx; cases hx
      | none => rw [hb] at hs; cases hs

/-! ### Facts about the slide index lists -/

theorem slideIndices_nodup (cursor : Fin 5 × Fin 5) (dir : Direction) :
    (slideIndices cursor dir).1.Nodup := by
  cases dir <;>
      simp [slideIndices, List.nodup_cons, List.mem_cons, Prod.mk.injEq, Fin.ext_iff] <;>
    decide

theorem slideIndices_length (cursor : Fin 5 × Fin 5) (dir : Direction) :
    (slideIndices cursor dir).1.length = 5 := by
  cases dir <;> rfl

/-! ### The rejection-sampling loop -/

theorem fillLoop_spec (b : Board) (draws : List (Fin 5 → Fin 5 → Piece)) (fb : PBoard)
    (h : fillLoop b draws = some fb) :
    board_has_clear fb = false ∧ ∀ y x p, b y x = some p → fb y x = p := by
  induction draws with
  | nil => cases h
  | cons d rest ih =>
    simp only [fillLoop] at h
    split at h
    · exact ih h
    · rename_i hclear
      injection h with h
      subst h
      refine ⟨by cases hc : board_has_clear (fillCandidate b d) with
        | false => rfl
        | true => exact absurd hc hclear, ?_⟩
      intro y x p hp
      unfold fillCandidate
      rw [hp]

/-! ### Pass 1 of `count_clears` claims a uniform row and a cascading column -/

theorem clearsPass_claims_both (b : PBoard) (r c : Fin 5)
    (hrow : ∀ x : Fin 5, b r x = b r 0)
    (hcol : ∀ y y' : Fin 5, y ≠ r → y' ≠ r → b y c = b y' c) :
    (clearsPass b (0, 0, 0)).1.testBit r.val = true ∧
    (clearsPass b (0, 0, 0)).2.1.testBit c.val = true ∧
    2 ≤ (clearsPass b (0, 0, 0)).2.2 := by
  have hrline : allEqual (lineForRow b 0 r) = true := by
    apply allEqual_of_pairwise
    intro a ha a' ha'
    unfold lineForRow at ha ha'
    rcases List.mem_map.mp ha with ⟨xc, -, rfl⟩
    rcases List.mem_map.mp ha' with ⟨xc', -, rfl⟩
    rw [hrow xc, hrow xc']
  have hcline : allEqual (lineForCol b (scan (lineForRow b 0) (0, 0)).1 c) = true := by
    apply allEqual_of_pairwise
    intro a ha a' ha'
    unfold lineForCol at ha ha'
    rcases List.mem_map.mp ha with ⟨yr, hyr, rfl⟩
    rcases List.mem_map.mp ha' with ⟨yr', hyr', rfl⟩
    have hne : ∀ z : Fin 5,
        z ∈ (List.finRange 5).filter
          (fun nrow => (scan (lineForRow b 0) (0, 0)).1 &&& (1 <<< nrow.val) == 0) →
        z ≠ r := by
      intro z hz hzr
      have hz0 := (List.mem_filter.mp hz).2
      have hz1 : (scan (lineForRow b 0) (0, 0)).1 &&& (1 <<< z.val) = 0 :=
        beq_iff_eq.mp hz0
      have hbit : (scan (lineForRow b 0) (0, 0)).1.testBit z.val = true := by
        rw [hzr]
        exact scan_claims' (lineForRow b 0) (0, 0) r hrline
      exact absurd hz1 ((mask_bit_iff _ z.val).mpr hbit)
    exact hcol yr yr' (hne yr hyr) (hne yr' hyr')
  have h1 : (scan (lineForRow b 0) (0, 0)).1.testBit r.val = true :=
    scan_claims' (lineForRow b 0) (0, 0) r hrline
  have hcnt1 : 1 ≤ (scan (lineForRow b 0) (0, 0)).2 :=
    scan_fresh_claim' (lineForRow b 0) (0, 0) r (Nat.zero_testBit r.val) hrline
  have h2 : (scan (lineForCol b (scan (lineForRow b 0) (0, 0)).1)
      (0, (scan (lineForRow b 0) (0, 0)).2)).1.testBit c.val = true :=
    scan_claims' (lineForCol b (scan (lineForRow b 0) (0, 0)).1)
      (0, (scan (lineForRow b 0) (0, 0)).2) c hcline
  have hcnt2 : (scan (lineForRow b 0) (0, 0)).2 + 1 ≤
      (scan (lineForCol b (scan (lineForRow b 0) (0, 0)).1)
        (0, (scan (lineForRow b 0) (0, 0)).2)).2 :=
    scan_fresh_claim' (lineForCol b (scan (lineForRow b 0) (0, 0)).1)
      (0, (scan (lineForRow b 0) (0, 0)).2) c (Nat.zero_testBit c.val) hcline
  have hcnt : 2 ≤ (scan (lineForCol b (scan (lineForRow b 0) (0, 0)).1)
      (0, (scan (lineForRow b 0) (0, 0)).2)).2 :=
    le_trans (Nat.add_le_add_right hcnt1 1) hcnt2
  exact ⟨h1, h2, hcnt⟩

/-! ### Computation lemmas for `move_player_cursor` -/

theorem move_player_cursor_none (anim : Bool) (st : TickState)
    (h : st.prevInput.direction = none) : move_player_cursor anim st = (st, none) := by
  unfold move_player_cursor
  split
  · rfl
  · rw [h]

theorem move_player_cursor_stale (st : TickState) (d : Direction)
    (hdir : st.prevInput.direction = some d)
    (hne : has_empty st.board = false)
    (hstale : FRAME_TIME * 3 < st.prevInput.elapsed) :
    move_player_cursor false st =
      ({ st with prevInput := { st.prevInput with direction := none } }, none) := by
  simp [move_player_cursor, hne, hdir, hstale]

theorem move_player_cursor_fresh_plain (st : TickState) (d : Direction)
    (hdir : st.prevInput.direction = some d)
    (hne : has_empty st.board = false)
    (hfresh : st.prevInput.elapsed ≤ FRAME_TIME * 3)
    (hshift : st.prevInput.shift_held = false) :
    move_player_cursor false st =
      ({ st with
         cursor := moveCursor st.cursor d
         prevInput := { st.prevInput with direction := none } }, none) := by
  have hnl := not_lt.mpr hfresh
  simp [move_player_cursor, hne, hdir, hnl, hshift]

theorem move_player_cursor_fresh_slide (st : TickState) (d : Direction)
    (hdir : st.prevInput.direction = some d)
    (hne : has_empty st.board = false)
    (hfresh : st.prevInput.elapsed ≤ FRAME_TIME * 3)
    (hshift : st.prevInput.shift_held = true) :
    move_player_cursor false st =
      ({ st with
         board := (slideCommit st.board st.cursor d).1
         prevInput := { st.prevInput with direction := none } },
       some (slideCommit st.board st.cursor d).2) := by
  have hnl := not_lt.mpr hfresh
  simp [move_player_cursor, hne, hdir, hnl, hshift]

/-! ### Claim theorems -/

/-- C1 (code bug): the claim says `count_clears` never stops while a
further pass could still claim a row or column and neither all rows nor all
columns are claimed.  On `c1Board` (columns 0–3 uniform, column 4 and all
rows not uniform) the source's exit test `ignored_cols == 0b1111` fires
after pass 1 with no rows claimed and column 4 unclaimed, returning 4,
even though one more pass would claim all five rows and column 4 (reaching
10, as the spec-described loop `count_clears_spec` does). -/
theorem c1_count_clears_early_exit :
    count_clears c1Board = 4 ∧
    clearsLoop c1Board 12 (0, 0, 0) = (0, 15, 4) ∧
    clearsPass c1Board (0, 15, 4) = (31, 31, 10) ∧
    count_clears_spec c1Board = 10 := by
  exact ⟨by decide, by decide, by decide, by decide⟩

/-- C4 (counterexample): on `c4Board` (row 0 uniform; column 0 uniform
only below row 0) the source pass claims column 0 in the same pass that
claims row 0, while a pass whose column scan uses the pre-pass claimed-row
snapshot does not — so the row and column scans of one pass do **not**
both use the same pre-pass snapshot. -/
theorem c4_counterexample :
    clearsPass c4Board (0, 0, 0) = (1, 1, 2) ∧
    clearsPassSnapshot c4Board (0, 0, 0) = (1, 0, 1) ∧
    clearsPass c4Board (0, 0, 0) ≠ clearsPassSnapshot c4Board (0, 0, 0) := by
  exact ⟨by decide, by decide, by decide⟩

/-- C4 (amended): within one pass rows are evaluated before columns and the
row scan uses the pre-pass claimed-column set (the claimed-row result of a
pass is the same under both semantics), but the column scan filters rows by
the claimed-row set as updated by the current pass's row scan, which is
observably different from the pre-pass snapshot on some board. -/
theorem c4_pass_row_scan_then_updated_col_scan :
    (∀ (b : PBoard) (s : Nat × Nat × Nat),
      (clearsPass b s).1 = (clearsPassSnapshot b s).1 ∧
      (clearsPass b s).2.1 =
        (scan (lineForCol b (scan (lineForRow b s.2.1) (s.1, s.2.2)).1)
          (s.2.1, (scan (lineForRow b s.2.1) (s.1, s.2.2)).2)).1) ∧
    ∃ b : PBoard, (clearsPass b (0, 0, 0)).2.1 ≠ (clearsPassSnapshot b (0, 0, 0)).2.1 :=
  ⟨fun b s => ⟨rfl, rfl⟩, ⟨c4Board, by decide⟩⟩

/-- C9 (confirmed): `all_equal` on an empty iterator is `true`; with all
five rows ignored every not-yet-claimed column's filtered line is empty, so
the column scan claims every column; and on the all-`Mascot` board
`count_clears` returns 10. -/
theorem c9_empty_all_equal_vacuous :
    allEqual ([] : List Piece) = true ∧
    (∀ (b : PBoard) (s : Nat × Nat) (i : Fin 5),
      (scan (lineForCol b 31) s).1.testBit i.val = true) ∧
    count_clears uniformBoard = 10 := by
  refine ⟨rfl, ?_, by decide⟩
  intro b s i
  apply scan_claims'
  have hfilter : (List.finRange 5).filter
      (fun nrow : Fin 5 => 31 &&& (1 <<< nrow.val) == 0) = [] := by decide
  unfold lineForCol
  rw [hfilter]
  rfl

/-- C6 (confirmed): for every fully-occupied grid with a uniform row `r`
and a column `c` that is not uniform over all five rows but is uniform over
the rows other than `r`, `count_clears` claims both `r` and `c` (pass 1
claims `r` in the row scan and then `c` in the column scan), and the
returned count is at least 2: the cascade is counted within one
evaluation. -/
theorem c6_cascading_count (b : PBoard) (r c : Fin 5)
    (hrow : ∀ x : Fin 5, b r x = b r 0)
    (_hcolNot : ¬ ∀ y y' : Fin 5, b y c = b y' c)
    (hcol : ∀ y y' : Fin 5, y ≠ r → y' ≠ r → b y c = b y' c) :
    (clearsLoop b 12 (0, 0, 0)).1.testBit r.val = true ∧
    (clearsLoop b 12 (0, 0, 0)).2.1.testBit c.val = true ∧
    2 ≤ count_clears b := by
  obtain ⟨h1, h2, h3⟩ := clearsPass_claims_both b r c hrow hcol
  have h12 : (12 : Nat) = 11 + 1 := rfl
  unfold count_clears
  rw [h12, clearsLoop_succ]
  split
  · exact ⟨h1, h2, h3⟩
  · exact ⟨clearsLoop_row_mono b 11 _ _ h1, clearsLoop_col_mono b 11 _ _ h2,
      le_trans h3 (clearsLoop_cnt_mono b 11 _)⟩

/-- Witness for C6 at `c4Board` with `r = 0`, `c = 0`. -/
theorem c6_cascading_count_witness :
    (∀ x : Fin 5, c4Board 0 x = c4Board 0 0) ∧
    (¬ ∀ y y' : Fin 5, c4Board y 0 = c4Board y' 0) ∧
    2 ≤ count_clears c4Board := by
  refine ⟨by decide, by decide, ?_⟩
  exact (c6_cascading_count c4Board 0 0 (by decide) (by decide) (by decide)).2.2

/-- C8 (confirmed): while any animation is still in progress or the grid
has an empty cell, `move_player_cursor` returns with no state change at
all: board, cursor and buffered input are untouched and nothing is
ejected. -/
theorem c8_guard_ignores_input (anim : Bool) (st : TickState)
    (h : anim = true ∨ has_empty st.board = true) :
    move_player_cursor anim st = (st, none) := by
  unfold move_player_cursor
  have hcond : (anim || has_empty st.board) = true := by
    rcases h with h | h <;> simp [h]
  rw [if_pos hcond]

/-- Witness for C8 on the all-empty board. -/
theorem c8_guard_ignores_input_witness :
    has_empty stC8.board = true ∧ move_player_cursor false stC8 = (stC8, none) :=
  ⟨by decide, c8_guard_ignores_input false stC8 (Or.inr (by decide))⟩

/-- C10 (confirmed): a plain (no-modifier) fresh directional move on a
fully-occupied, non-animating board moves the cursor exactly one step with
wraparound mod 5 on the corresponding axis (`Up`/`Right` increment,
`Down`/`Left` decrement) and leaves the board unchanged; in particular `Up`
from `y = 4` yields `y = 0` and `Left` from `x = 0` yields `x = 4`. -/
theorem c10_cursor_wrap (st : TickState) (d : Direction)
    (hdir : st.prevInput.direction = some d)
    (hshift : st.prevInput.shift_held = false)
    (hfresh : st.prevInput.elapsed ≤ FRAME_TIME * 3)
    (hne : has_empty st.board = false) :
    (move_player_cursor false st).1.cursor = moveCursor st.cursor d ∧
    (move_player_cursor false st).1.board = st.board ∧
    (∀ c : Fin 5 × Fin 5,
      ((moveCursor c Direction.Up).1 = c.1 ∧
        (moveCursor c Direction.Up).2.val = (c.2.val + 1) % 5) ∧
      ((moveCursor c Direction.Down).1 = c.1 ∧
        (moveCursor c Direction.Down).2.val = (c.2.val + 4) % 5) ∧
      ((moveCursor c Direction.Left).2 = c.2 ∧
        (moveCursor c Direction.Left).1.val = (c.1.val + 4) % 5) ∧
      ((moveCursor c Direction.Right).2 = c.2 ∧
        (moveCursor c Direction.Right).1.val = (c.1.val + 1) % 5)) := by
  refine ⟨?_, ?_, ?_⟩
  · rw [move_player_cursor_fresh_plain st d hdir hne hfresh hshift]
  · rw [move_player_cursor_fresh_plain st d hdir hne hfresh hshift]
  · intro c
    exact ⟨⟨rfl, rfl⟩, ⟨rfl, rfl⟩, ⟨rfl, rfl⟩, ⟨rfl, rfl⟩⟩

/-- Witness for C10: `Up` from `(0, 4)` wraps to `(0, 0)` and `Left` from
`(0, 0)` wraps to `(4, 0)`. -/
theorem c10_cursor_wrap_witness :
    stC10.prevInput.elapsed ≤ FRAME_TIME * 3 ∧
    (move_player_cursor false stC10).1.cursor = ((0 : Fin 5), (0 : Fin 5)) ∧
    (move_player_cursor false stC10L).1.cursor = ((4 : Fin 5), (0 : Fin 5)) := by
  have h1 := c10_cursor_wrap stC10 Direction.Up rfl rfl
    (by norm_num [stC10, FRAME_TIME]) (by decide)
  have h2 := c10_cursor_wrap stC10L Direction.Left rfl rfl
    (by norm_num [stC10L, FRAME_TIME]) (by decide)
  refine ⟨by norm_num [stC10, FRAME_TIME], ?_, ?_⟩
  · rw [h1.1]; decide
  · rw [h2.1]; decide

/-- C7 (confirmed): a buffered move, on the next tick that reaches it,
fires exactly once when the elapsed time is at most 3 frame-times (moving
the cursor or committing a slide) and is silently discarded when the
elapsed time exceeds 3 frame-times (only the buffered slot changes); in
both cases the buffered direction is cleared, a further tick without a new
key edge does nothing, and a new key edge overwrites the buffered move and
resets the stopwatch to zero. -/
theorem c7_debounce (st : TickState) (d : Direction)
    (hdir : st.prevInput.direction = some d)
    (hne : has_empty st.board = false) :
    (st.prevInput.elapsed ≤ FRAME_TIME * 3 → st.prevInput.shift_held = false →
      move_player_cursor false st =
        ({ st with
           cursor := moveCursor st.cursor d
           prevInput := { st.prevInput with direction := none } }, none)) ∧
    (st.prevInput.elapsed ≤ FRAME_TIME * 3 → st.prevInput.shift_held = true →
      move_player_cursor false st =
        ({ st with
           board := (slideCommit st.board st.cursor d).1
           prevInput := { st.prevInput with direction := none } },
         some (slideCommit st.board st.cursor d).2)) ∧
    (FRAME_TIME * 3 < st.prevInput.elapsed →
      move_player_cursor false st =
        ({ st with prevInput := { st.prevInput with direction := none } }, none)) ∧
    (move_player_cursor false st).1.prevInput.direction = none ∧
    (∀ anim2 : Bool, move_player_cursor anim2 (move_player_cursor false st).1
        = ((move_player_cursor false st).1, none)) ∧
    (∀ (pi : PreviousInput) (d' : Direction) (s' : Bool) (delta : ℚ),
      update_input pi (some (d', s')) delta
        = { elapsed := 0, direction := some d', shift_held := s' }) := by
  have hdirnone : (move_player_cursor false st).1.prevInput.direction = none := by
    rcases le_or_lt st.prevInput.elapsed (FRAME_TIME * 3) with hf | hs
    · cases hsh : st.prevInput.shift_held
      · rw [move_player_cursor_fresh_plain st d hdir hne hf hsh]
      · rw [move_player_cursor_fresh_slide st d hdir hne hf hsh]
    · rw [move_player_cursor_stale st d hdir hne hs]
  refine ⟨fun hf hsh => move_player_cursor_fresh_plain st d hdir hne hf hsh,
    fun hf hsh => move_player_cursor_fresh_slide st d hdir hne hf hsh,
    fun hs => move_player_cursor_stale st d hdir hne hs,
    hdirnone,
    fun anim2 => move_player_cursor_none anim2 _ hdirnone,
    fun pi d' s' delta => rfl⟩

/-- Witness for C7 at `stC7` (fresh `Up`, no modifier): the move fires,
the buffered slot is cleared, and a second tick does nothing. -/
theorem c7_debounce_witness :
    stC7.prevInput.elapsed ≤ FRAME_TIME * 3 ∧
    move_player_cursor false stC7 =
      ({ stC7 with
         cursor := moveCursor stC7.cursor Direction.Up
         prevInput := { stC7.prevInput with direction := none } }, none) ∧
    (move_player_cursor false stC7).1.prevInput.direction = none := by
  have h := c7_debounce stC7 Direction.Up rfl (by decide)
  have hf : stC7.prevInput.elapsed ≤ FRAME_TIME * 3 := by
    norm_num [stC7, FRAME_TIME]
  exact ⟨hf, h.1 hf rfl, h.2.2.2.1⟩

/-- C3 (confirmed): committing a slide on a fully-occupied board never
empties a cell — every one of the 25 cells still holds a piece — and the 5
cells of the slid line hold exactly the same multiset of pieces as before
(the written line is a rotation, hence a permutation, of the old line). -/
theorem c3_slide_preserves_pieces (b : Board) (cursor : Fin 5 × Fin 5) (dir : Direction)
    (h : has_empty b = false) :
    has_empty (slideCommit b cursor dir).1 = false ∧
    ((slideIndices cursor dir).1.map (fun k => (slideCommit b cursor dir).1 k.2 k.1)).Perm
      ((slideIndices cursor dir).1.map (fun k => b k.2 k.1)) := by
  have hocc := (has_empty_false_iff b).mp h
  have hsc : (slideCommit b cursor dir).1 =
      applyWrites b ((slideIndices cursor dir).1.zip
        (rotateRight ((slideIndices cursor dir).1.map
          (fun xy => (b xy.2 xy.1).getD Piece.Mascot))
          (max (slideIndices cursor dir).2.1 (slideIndices cursor dir).2.2))) := rfl
  have hlen : (rotateRight ((slideIndices cursor dir).1.map
      (fun xy => (b xy.2 xy.1).getD Piece.Mascot))
      (max (slideIndices cursor dir).2.1 (slideIndices cursor dir).2.2)).length
      = (slideIndices cursor dir).1.length := by
    unfold rotateRight
    rw [List.length_rotate, List.length_map]
  constructor
  · rw [has_empty_false_iff]
    intro y x
    rw [hsc]
    exact applyWrites_isSome _ b x y (hocc y x)
  · have hline := slide_line_spec b (slideIndices cursor dir).1
      (rotateRight ((slideIndices cursor dir).1.map
        (fun xy => (b xy.2 xy.1).getD Piece.Mascot))
        (max (slideIndices cursor dir).2.1 (slideIndices cursor dir).2.2))
      (slideIndices_nodup cursor dir) hlen
    have hocc_line : (slideIndices cursor dir).1.map (fun k => b k.2 k.1)
        = ((slideIndices cursor dir).1.map
            (fun xy => (b xy.2 xy.1).getD Piece.Mascot)).map some := by
      rw [List.map_map]
      apply List.map_congr_left
      intro k hk
      cases hb : b k.2 k.1 with
      | none =>
        exfalso
        have := hocc k.2 k.1
        rw [hb] at this
        cases this
      | some p => simp [Function.comp, hb]
    rw [hsc, hline, hocc_line]
    exact (List.rotate_perm _ _).map some

/-- Witness for C3: the Right slide at `(2, 2)` on the fully-occupied
`c2Board` leaves no empty cell. -/
theorem c3_slide_preserves_pieces_witness :
    has_empty c2Board = false ∧
    has_empty (slideCommit c2Board (2, 2) Direction.Right).1 = false :=
  ⟨by decide, (c3_slide_preserves_pieces c2Board (2, 2) Direction.Right (by decide)).1⟩

/-- C2 (counterexample): with the cursor at `(2, 2)` and a Right slide with
modifier held on `c2Board`, whose row `y = 2` is `[A, B, C, D, E] =
[Mascot, Checkered, Donut, Flower, Green]`, the committed row is indeed
`[E, A, B, C, D]`, but the ejected extra shows `E` (`Green`, the piece that
wraps from `x = 4`), not `D` (`Flower`) as the claim states. -/
theorem c2_counterexample :
    (slideCommit c2Board (2, 2) Direction.Right).1 2 0 = some Piece.Green ∧
    (slideCommit c2Board (2, 2) Direction.Right).1 2 1 = some Piece.Mascot ∧
    (slideCommit c2Board (2, 2) Direction.Right).1 2 2 = some Piece.Checkered ∧
    (slideCommit c2Board (2, 2) Direction.Right).1 2 3 = some Piece.Donut ∧
    (slideCommit c2Board (2, 2) Direction.Right).1 2 4 = some Piece.Flower ∧
    (slideCommit c2Board (2, 2) Direction.Right).2 = Piece.Green ∧
    Piece.Green ≠ Piece.Flower := by
  exact ⟨by decide, by decide, by decide, by decide, by decide, by decide, by decide⟩

/-- C2 (amended): for every fully-occupied board and cursor, a Right slide
with modifier held on a row `[A, B, C, D, E]` commits the row
`[E, A, B, C, D]` (the five cells are the cyclic rotation of the originals
by one step toward the direction of travel, so four pieces move one step
and the fifth wraps) and the ejected extra is `E` — the most-downstream
piece, the one that wraps — while every cell outside the slid row is
unchanged. -/
theorem c2_right_slide_rotation (b : Board) (cx cy : Fin 5) (v : Fin 5 → Piece)
    (h : ∀ x : Fin 5, b cy x = some (v x)) :
    (slideCommit b (cx, cy) Direction.Right).1 cy 0 = some (v 4) ∧
    (slideCommit b (cx, cy) Direction.Right).1 cy 1 = some (v 0) ∧
    (slideCommit b (cx, cy) Direction.Right).1 cy 2 = some (v 1) ∧
    (slideCommit b (cx, cy) Direction.Right).1 cy 3 = some (v 2) ∧
    (slideCommit b (cx, cy) Direction.Right).1 cy 4 = some (v 3) ∧
    (slideCommit b (cx, cy) Direction.Right).2 = v 4 ∧
    (∀ y x : Fin 5, y ≠ cy → (slideCommit b (cx, cy) Direction.Right).1 y x = b y x) := by
  have hv : ∀ x : Fin 5, (b cy x).getD Piece.Mascot = v x := by
    intro x
    rw [h x]
    rfl
  have hmain : slideCommit b (cx, cy) Direction.Right
      = (applyWrites b ([((0 : Fin 5), cy), (1, cy), (2, cy), (3, cy), (4, cy)].zip
          (rotateRight [(b cy 0).getD Piece.Mascot, (b cy 1).getD Piece.Mascot,
            (b cy 2).getD Piece.Mascot, (b cy 3).getD Piece.Mascot,
            (b cy 4).getD Piece.Mascot] 1)),
         (b cy 4).getD Piece.Mascot) := rfl
  rw [hmain, hv 0, hv 1, hv 2, hv 3, hv 4]
  have hrot : rotateRight [v 0, v 1, v 2, v 3, v 4] 1 = [v 4, v 0, v 1, v 2, v 3] := rfl
  rw [hrot]
  have hzip : ([((0 : Fin 5), cy), (1, cy), (2, cy), (3, cy), (4, cy)].zip
        [v 4, v 0, v 1, v 2, v 3])
      = [(((0 : Fin 5), cy), v 4), ((1, cy), v 0), ((2, cy), v 1), ((3, cy), v 2),
         ((4, cy), v 3)] := rfl
  rw [hzip]
  have hnd : (([(((0 : Fin 5), cy), v 4), ((1, cy), v 0), ((2, cy), v 1), ((3, cy), v 2),
      ((4, cy), v 3)] : List ((Fin 5 × Fin 5) × Piece)).map Prod.fst).Nodup := by
    simp [List.nodup_cons, List.mem_cons, Prod.mk.injEq, Fin.ext_iff]
    decide
  refine ⟨applyWrites_mem _ b 0 cy (v 4) hnd (by simp),
    applyWrites_mem _ b 1 cy (v 0) hnd (by simp),
    applyWrites_mem _ b 2 cy (v 1) hnd (by simp),
    applyWrites_mem _ b 3 cy (v 2) hnd (by simp),
    applyWrites_mem _ b 4 cy (v 3) hnd (by simp),
    rfl, ?_⟩
  intro y x hy
  apply applyWrites_not_mem
  simp only [List.map_cons, List.map_nil, List.mem_cons, List.not_mem_nil, Prod.mk.injEq]
  push_neg
  exact ⟨fun _ => hy, fun _ => hy, fun _ => hy, fun _ => hy, fun _ => hy, not_false⟩

/-- Witness for C2 at `c2Board`: the committed row is `[E, A, B, C, D]` and
the ejected piece is `E = Green`. -/
theorem c2_right_slide_rotation_witness :
    (∀ x : Fin 5, c2Board 2 x = some (c2RowFun x)) ∧
    (slideCommit c2Board (2, 2) Direction.Right).1 2 0 = some (c2RowFun 4) ∧
    (slideCommit c2Board (2, 2) Direction.Right).2 = c2RowFun 4 := by
  have h := c2_right_slide_rotation c2Board 2 2 c2RowFun (by decide)
  exact ⟨by decide, h.1, h.2.2.2.2.2.1⟩

/-- C5 (confirmed): whenever the board has an empty cell and the
rejection-sampling loop accepts a candidate, `randomly_fill_board` leaves
every cell occupied, keeps every previously occupied cell's piece
unchanged, and the resulting fully-occupied board has no uniform row or
column per the single-pass check `board_has_clear`. -/
theorem c5_fill_no_clear (b : Board) (draws : List (Fin 5 → Fin 5 → Piece)) (fb : PBoard)
    (hemp : has_empty b = true)
    (hloop : fillLoop b draws = some fb) :
    has_empty (randomly_fill_board b draws) = false ∧
    (∀ (y x : Fin 5) (p : Piece), b y x = some p → randomly_fill_board b draws y x = some p) ∧
    board_has_clear
      (fun y x => ((randomly_fill_board b draws) y x).getD Piece.Mascot) = false := by
  obtain ⟨hclear, hkeep⟩ := fillLoop_spec b draws fb hloop
  have hne : ¬ has_empty b = false := by
    rw [hemp]
    simp
  have hrfb : ∀ y x : Fin 5, randomly_fill_board b draws y x
      = match b y x with
        | some p => some p
        | none => some (fb y x) := by
    intro y x
    unfold randomly_fill_board
    rw [if_neg hne, hloop]
  refine ⟨?_, ?_, ?_⟩
  · rw [has_empty_false_iff]
    intro y x
    rw [hrfb y x]
    cases hb : b y x <;> rfl
  · intro y x p hp
    rw [hrfb y x, hp]
  · have hfun : (fun y x => ((randomly_fill_board b draws) y x).getD Piece.Mascot) = fb := by
      funext y x
      rw [hrfb y x]
      cases hb : b y x with
      | none => rfl
      | some p =>
        show p = fb y x
        exact (hkeep y x p hb).symm
    rw [hfun]
    exact hclear

/-- Witness for C5: filling the all-empty board with the clear-free draw
grid `g0` succeeds on the first attempt and yields a full, clear-free
board. -/
theorem c5_fill_no_clear_witness :
    has_empty emptyBoard = true ∧
    has_empty (randomly_fill_board emptyBoard [g0]) = false ∧
    board_has_clear
      (fun y x => ((randomly_fill_board emptyBoard [g0]) y x).getD Piece.Mascot) = false := by
  have h := c5_fill_no_clear emptyBoard [g0] (fillCandidate emptyBoard g0) (by decide) rfl
  exact ⟨by decide, h.1, h.2.2⟩

end Yoco
